import Mathlib

/-!
Verification development for the AES Crypt for Windows worker-thread
orchestration subsystem (`worker_threads.cpp`, `has_aes_extension.cpp`,
`progress_dialog.cpp`).

Filenames (`std::wstring`) are modelled as `List Char`.  Wall-clock instants
(`std::chrono::steady_clock::time_point`) are modelled as natural numbers of
milliseconds.  Each definition below embeds one function or code fragment of
the source, keeping the source's names and branch structure.
-/

namespace AESCryptWin

/-- A `std::wstring` filename. -/
abbrev Filename := List Char

/-! ## `has_aes_extension.cpp` : `HasAESExtension`

The source builds `std::filesystem::path(filename)` and takes
`.extension().wstring()`.  We embed the relevant `std::filesystem::path`
decomposition: `filename()` is the component after the last directory
separator (on Windows `/` or `\`, after a `X:` drive root-name), and
`extension()` is the substring of `filename()` from its rightmost period,
except that `"."`, `".."` and names whose only/rightmost period is the first
character (dotfiles) have an empty extension. -/

/-- Windows directory separators recognised by `std::filesystem::path`. -/
def isDirSeparator (c : Char) : Bool := c = '/' || c = '\\'

/-- Drop a leading drive root-name such as `C:` (a letter followed by `:`). -/
def stripDriveRootName (s : Filename) : Filename :=
  match s with
  | a :: b :: rest => if a.isAlpha && b = ':' then rest else s
  | _ => s

/-- Embeds `std::filesystem::path::filename()`: the component after the last
directory separator. -/
def filenamePart (s : Filename) : Filename :=
  (stripDriveRootName s).foldl
    (fun acc c => if isDirSeparator c then [] else acc ++ [c]) []

/-- Embeds `std::filesystem::path::extension()` applied to a filename component `f`:
empty for `"."`, `".."`, dot-less names and dotfiles; otherwise the substring
of `f` starting at the rightmost period. -/
def extensionPart (f : Filename) : Filename :=
  if f = ['.'] || f = ['.', '.'] then []
  else if (f.reverse.takeWhile (fun c => c ≠ '.')).length = f.length then []
  else if (f.reverse.takeWhile (fun c => c ≠ '.')).length + 1 = f.length then
    []
  else '.' :: (f.reverse.takeWhile (fun c => c ≠ '.')).reverse

/-- The character-by-character test of `HasAESExtension` (lines 50-59 of
`has_aes_extension.cpp`): the extension has exactly 4 characters and they
spell `.aes` case-insensitively. -/
def isAesExtensionChars : Filename → Bool
  | [d, a, e, s] =>
      d = '.' && (a = 'a' || a = 'A') && (e = 'e' || e = 'E') &&
        (s = 's' || s = 'S')
  | _ => false

/-- Source function `HasAESExtension(filename)`: true when
`std::filesystem::path(filename).extension()` is `.aes` case-insensitively. -/
def HasAESExtension (filename : Filename) : Bool :=
  isAesExtensionChars (extensionPart (filenamePart filename))

/-- The wording of the spec: the name ends, case-insensitively, with the four
characters `.aes`. -/
def endsWithAesCI (s : Filename) : Bool :=
  match s.reverse with
  | t :: x :: a :: d :: _ =>
      (t = 's' || t = 'S') && (x = 'e' || x = 'E') && (a = 'a' || a = 'A') &&
        d = '.'
  | _ => false

/-- Embeds `std::wstring::resize(n)`: truncate or pad with null characters. -/
def wstringResize (s : Filename) (n : Nat) : Filename :=
  if n ≤ s.length then s.take n
  else s ++ List.replicate (n - s.length) (Char.ofNat 0)

/-- Source `EncryptFiles` line 559: `out_file = in_file + L".aes"`. -/
def encryptOutputName (in_file : Filename) : Filename :=
  in_file ++ ['.', 'a', 'e', 's']

/-- Source `DecryptFiles` lines 1013-1014: `out_file = in_file;`
`out_file.resize(out_file.size() - 4)`. -/
def decryptOutputName (in_file : Filename) : Filename :=
  wstringResize in_file (in_file.length - 4)

/-! ## Progress relay (`worker_threads.cpp` lines 739-779 and 1186-1226)

`EncryptStream` and `DecryptStream` contain the identical `progress_updater`
lambda.  Its state (captured by reference) is `last_update_time`, the shared
atomic `current_meter_position` and the condition variable; we also count the
`cv.notify_all()` calls. -/

/-- Source constant `constexpr std::chrono::milliseconds Progress_Update_Minimum(250)`. -/
def Progress_Update_Minimum : Nat := 250

/-- State captured by `progress_updater`:`last_update_time`, the shared atomic
`current_meter_position`, and the number of `cv.notify_all()` signals so far. -/
structure ProgressState where
  last_update_time : Nat
  current_meter_position : Nat
  signals : Nat
  deriving Repr, DecidableEq

/-- The `progress_updater` lambda (lines 754-779 = 1201-1226): return
unchanged if `input_size == 0`; return unchanged if
`position == input_size || current_time - last_update_time <
Progress_Update_Minimum`; otherwise record the time, store
`100 * position / input_size` in the atomic meter and signal the condition
variable. -/
def progress_updater (input_size position current_time : Nat)
    (st : ProgressState) : ProgressState :=
  if input_size = 0 then st
  else if position = input_size ∨
      current_time - st.last_update_time < Progress_Update_Minimum then st
  else
    { last_update_time := current_time
      current_meter_position := 100 * position / input_size
      signals := st.signals + 1 }

/-- The update condition the spec states: signal exactly when the minimum
interval has elapsed since the last signal or `position == input_size`. -/
def specUpdateCondition (input_size position current_time last_update : Nat) :
    Bool :=
  input_size ≠ 0 &&
    (Progress_Update_Minimum ≤ current_time - last_update ||
      position = input_size)

/-- One run of `progress_updater` over a list of `(position, time)` callback
invocations. -/
def progressRun (input_size : Nat) (calls : List (Nat × Nat))
    (st : ProgressState) : ProgressState :=
  calls.foldl (fun s pt => progress_updater input_size pt.1 pt.2 s) st

/-- The controller loop body of `EncryptStream`/`DecryptStream` (lines 829-838
= 1274-1283): read the atomic meter and send it to the progress bar only if it
is strictly greater than the last displayed value.  Given the last displayed
value and the successive meter readings observed on wake-ups, this returns the
positions actually sent with `PBM_SETPOS`. -/
def sentPositions : Nat → List Nat → List Nat
  | _, [] => []
  | last, m :: rest =>
      if last < m then m :: sentPositions m rest else sentPositions last rest

/-- Meter readings observed by the controller when the engine issues the given
callback sequence: the value of the shared atomic after each callback. -/
def meterReadings (input_size : Nat) (st : ProgressState) :
    List (Nat × Nat) → List Nat
  | [] => []
  | pt :: rest =>
      let st' := progress_updater input_size pt.1 pt.2 st
      st'.current_meter_position :: meterReadings input_size st' rest

/-! ## Engine results and the tail of `EncryptStream`/`DecryptStream`

The AES Crypt engine is an external collaborator; the worker code only
distinguishes `Success`, the cancelled result, and everything else (which it
formats with `operator<<` and reports).  `Failure` carries the diagnostic
text that formatting an error result produces. -/

/-- An engine `EncryptResult`/`DecryptResult` as the worker code observes it. -/
inductive EngineResult where
  | Success
  | Cancelled
  | Failure (diagnostic : List Char)
  deriving Repr, DecidableEq

/-- The text `oss << result` produces for a result the code formats.  Only
failure results are ever formatted (lines 850-857, 1295-1302). -/
def resultDiagnostic : EngineResult → List Char
  | .Failure d => d
  | _ => []

/-- Return value of a stream transfer together with the error reports made. -/
structure StreamOutcome where
  returned : Bool
  reports : List (List Char)
  deriving Repr, DecidableEq

/-- Lines 849-868 (encrypt) = 1294-1313 (decrypt): if the result is neither
`Success` nor the cancelled result, format it, report it and return false;
otherwise return `result == Success`. -/
def streamFinish (errorLabel : List Char) (result : EngineResult) :
    StreamOutcome :=
  if result ≠ EngineResult.Success ∧ result ≠ EngineResult.Cancelled then
    { returned := false
      reports := [errorLabel ++ resultDiagnostic result] }
  else
    { returned := decide (result = EngineResult.Success), reports := [] }

/-- Source `EncryptStream`'s handling of the engine result (lines 849-868). -/
def EncryptStreamFinish : EngineResult → StreamOutcome :=
  streamFinish ("Failed to encrypt: ".data)

/-- Source `DecryptStream`'s handling of the engine result (lines 1294-1313). -/
def DecryptStreamFinish : EngineResult → StreamOutcome :=
  streamFinish ("Failed to decrypt: ".data)

/-! ## Per-file output handling (`EncryptFiles` lines 561-666,
`DecryptFiles` lines 1016-1121) -/

/-- What `std::filesystem::status` reports for the output path. -/
inductive FileKind where
  | absent
  | regular
  | other
  deriving Repr, DecidableEq, Fintype

/-- Observable outcome of one file's output handling. -/
structure FileStepResult where
  reported_exists_error : Bool
  opened_output : Bool
  removed_output : Bool
  continue_batch : Bool
  deriving Repr, DecidableEq

/-- The fragment of the per-file loop from the output-status check to the end
of the iteration: `remove_on_fail` is set iff the output path does not exist;
an existing regular file is reported and breaks the batch before the output is
opened; an output-open failure is reported and breaks; after the transfer, a
false result removes the output iff `remove_on_fail` and breaks; otherwise the
loop continues unless cancel was pressed. -/
def outputFileStep (out_status : FileKind)
    (open_output_ok transfer_ok cancel_pressed : Bool) : FileStepResult :=
  let remove_on_fail := decide (out_status = FileKind.absent)
  if out_status = FileKind.regular then
    { reported_exists_error := true, opened_output := false,
      removed_output := false, continue_batch := false }
  else if open_output_ok = false then
    { reported_exists_error := false, opened_output := false,
      removed_output := false, continue_batch := false }
  else if transfer_ok = false then
    { reported_exists_error := false, opened_output := true,
      removed_output := remove_on_fail, continue_batch := false }
  else
    { reported_exists_error := false, opened_output := true,
      removed_output := false, continue_batch := !cancel_pressed }

/-! ## Batch traces (`ProcessFiles`, `EncryptFiles`, `DecryptFiles`) -/

/-- Externally observable events of a batch run. -/
inductive Event where
  | passwordDialog
  | reportError
  | createProgressDialog
  | openInput (name : Filename)
  | openOutput (name : Filename)
  | removeOutput (name : Filename)
  deriving Repr, DecidableEq

/-- The environment a batch runs against: per-file status of the output path
and outcomes of the opens, the engine transfer, and the cancel flag as
observed after each file. -/
structure FileEnv where
  out_status : Filename → FileKind
  open_input_ok : Filename → Bool
  open_output_ok : Filename → Bool
  transfer_ok : Filename → Bool
  cancel_after : Filename → Bool

/-- The per-file loop of `EncryptFiles` (lines 508-667) as the list of events
it emits: open the input (failure reports and breaks), derive the output name,
check it (an existing regular file reports and breaks), open it (failure
reports and breaks), transfer, remove the output on failure iff it did not
pre-exist, and continue unless cancel was pressed. -/
def encryptLoop (env : FileEnv) : List Filename → List Event
  | [] => []
  | f :: rest =>
      if env.open_input_ok f = false then [Event.reportError]
      else
        Event.openInput f ::
          (let out := encryptOutputName f
           if env.out_status out = FileKind.regular then [Event.reportError]
           else if env.open_output_ok out = false then [Event.reportError]
           else
             Event.openOutput out ::
               (if env.transfer_ok f = false then
                  if env.out_status out = FileKind.absent then
                    [Event.removeOutput out]
                  else []
                else if env.cancel_after f then []
                else encryptLoop env rest))

/-- The per-file loop of `DecryptFiles` (lines 962-1122); identical to
`encryptLoop` except the output name strips the suffix. -/
def decryptLoop (env : FileEnv) : List Filename → List Event
  | [] => []
  | f :: rest =>
      if env.open_input_ok f = false then [Event.reportError]
      else
        Event.openInput f ::
          (let out := decryptOutputName f
           if env.out_status out = FileKind.regular then [Event.reportError]
           else if env.open_output_ok out = false then [Event.reportError]
           else
             Event.openOutput out ::
               (if env.transfer_ok f = false then
                  if env.out_status out = FileKind.absent then
                    [Event.removeOutput out]
                  else []
                else if env.cancel_after f then []
                else decryptLoop env rest))

/-- Source `EncryptFiles` (lines 441-675): return immediately on an empty list,
otherwise create the progress dialog and run the loop. -/
def encryptFilesTrace (env : FileEnv) (file_list : List Filename) :
    List Event :=
  if file_list.isEmpty then []
  else Event.createProgressDialog :: encryptLoop env file_list

/-- Source `DecryptFiles` (lines 890-1130): return on an empty list; report once and
return if any file lacks the `.aes` suffix (lines 903-912) — before the
progress dialog is created and before any file is opened; otherwise create
the progress dialog and run the loop. -/
def decryptFilesTrace (env : FileEnv) (file_list : List Filename) :
    List Event :=
  if file_list.isEmpty then []
  else
    match file_list.find? (fun f => !(HasAESExtension f)) with
    | some _ => [Event.reportError]
    | none => Event.createProgressDialog :: decryptLoop env file_list

/-- Outcome of `PasswdDialog::DoModal` plus the UTF-8 conversion that follows
(`ProcessFiles` lines 239-252). -/
inductive PasswordPromptResult where
  | cancelled
  | ok (converts_to_utf8 : Bool)
  deriving Repr, DecidableEq

/-- Source `ProcessFiles` (lines 234-256) followed by the session the started thread
runs: the password dialog is shown first, unconditionally; on cancel nothing
happens; a failed UTF-8 conversion is reported; otherwise the file batch
runs. -/
def processFilesTrace (pw : PasswordPromptResult) (encrypt : Bool)
    (env : FileEnv) (file_list : List Filename) : List Event :=
  Event.passwordDialog ::
    match pw with
    | .cancelled => []
    | .ok false => [Event.reportError]
    | .ok true =>
        if encrypt then encryptFilesTrace env file_list
        else decryptFilesTrace env file_list

/-- A concrete environment for witnesses: every output path absent, every
operation succeeding, cancel never pressed. -/
def trivialEnv : FileEnv :=
  { out_status := fun _ => FileKind.absent
    open_input_ok := fun _ => true
    open_output_ok := fun _ => true
    transfer_ok := fun _ => true
    cancel_after := fun _ => false }

/-! ## Request dispatcher (`WorkerThreads` state, `StartThread`,
`ThreadEntry`, `IsBusy`) -/

/-- Source struct `RequestData` (worker_threads.h lines 41-48); the file list, password and
direction ride along, the supervision logic matches on `thread_id`. -/
structure RequestData where
  file_list : List Filename
  encrypt : Bool
  thread_id : Nat
  thread_handle : Nat
  deriving Repr, DecidableEq

/-- The dispatcher state protected by the critical section: `thread_count`
(an `int`), the pending `requests` deque and the `terminated_threads`
deque of handles. -/
structure WorkerState where
  thread_count : Int
  requests : List RequestData
  terminated_threads : List Nat
  deriving Repr, DecidableEq

/-- Source `IsBusy` (lines 204-213): true iff `thread_count > 0`. -/
def IsBusy (s : WorkerState) : Bool :=
  if 0 < s.thread_count then true else false

/-- Source `StartThread` (lines 281-320): if `CreateThread` succeeds, enqueue the
request and increment the counter; if it fails, report the error and change
nothing (no enqueue, no increment). -/
def StartThread (s : WorkerState) (create_ok : Bool) (req : RequestData) :
    WorkerState :=
  if create_ok then
    { s with requests := s.requests ++ [req],
             thread_count := s.thread_count + 1 }
  else s

/-- Source `ThreadEntry` lines 347-356: drain the reap queue, releasing every handle
in it.  Returns the new state and the released handles. -/
def reapTerminatedThreads (s : WorkerState) : WorkerState × List Nat :=
  ({ s with terminated_threads := [] }, s.terminated_threads)

/-- Observable outcome of the remainder of `ThreadEntry`. -/
structure ThreadEntryResult where
  state : WorkerState
  reports : Nat
  pushed_handles : List Nat
  released_handles : List Nat
  deriving Repr, DecidableEq

/-- Source `ThreadEntry` lines 358-419, after the reap sweep: locate the request by
thread id.  If none matches (lines 367-379) report the rendezvous failure,
decrement the counter and return — the request queue and the reap queue are
untouched and no handle is pushed or released here.  Otherwise (lines 381-418)
remove the request, process the files (any exception is caught and reported,
then execution falls through), decrement the counter and push this session's
own handle onto the reap queue. -/
def rendezvousAndProcess (tid : Nat) (processing_throws : Bool)
    (s : WorkerState) : ThreadEntryResult :=
  match s.requests.find? (fun r => decide (r.thread_id = tid)) with
  | none =>
      { state := { s with thread_count := s.thread_count - 1 }
        reports := 1
        pushed_handles := []
        released_handles := [] }
  | some req =>
      { state :=
          { s with
            requests := s.requests.eraseP (fun r => decide (r.thread_id = tid))
            thread_count := s.thread_count - 1
            terminated_threads := s.terminated_threads ++ [req.thread_handle] }
        reports := if processing_throws then 1 else 0
        pushed_handles := [req.thread_handle]
        released_handles := [] }

/-- The whole of `ThreadEntry` (lines 339-419): the reap sweep followed by the
rendezvous and processing. -/
def ThreadEntry (tid : Nat) (processing_throws : Bool) (s : WorkerState) :
    ThreadEntryResult :=
  let (s1, released) := reapTerminatedThreads s
  let r := rendezvousAndProcess tid processing_throws s1
  { r with released_handles := released ++ r.released_handles }

/-- System state: the dispatcher state plus the (ghost) ids of session
threads that have been created and have not yet run to exit. -/
structure SystemState where
  worker : WorkerState
  running : List Nat
  deriving Repr, DecidableEq

/-- Atomic transitions of the dispatcher, each one holding the critical
section in the source: a successful `StartThread`, a failed `StartThread`,
and a session thread running `ThreadEntry` to exit. -/
inductive WStep : SystemState → SystemState → Prop
  | startOk {s : SystemState} (req : RequestData) :
      WStep s ⟨StartThread s.worker true req, req.thread_id :: s.running⟩
  | startFail {s : SystemState} (req : RequestData) :
      WStep s ⟨StartThread s.worker false req, s.running⟩
  | finish {s : SystemState} (tid : Nat) (thr : Bool) (h : tid ∈ s.running) :
      WStep s ⟨(ThreadEntry tid thr s.worker).state, s.running.erase tid⟩

/-- States reachable from the freshly constructed `WorkerThreads` object
(`thread_count{0}`, empty deques, no sessions). -/
inductive ReachableState : SystemState → Prop
  | init : ReachableState ⟨⟨0, [], []⟩, []⟩
  | step {s s' : SystemState} :
      ReachableState s → WStep s s' → ReachableState s'

/-! ## `ProgressDialog` cancellation (`progress_dialog.cpp`) -/

/-- The dialog's observable state: the atomic `cancel_pressed` flag and
whether the window has been hidden. -/
structure DialogState where
  cancel_pressed : Bool
  hidden : Bool
  deriving Repr, DecidableEq

/-- Messages the dialog handles that are relevant to cancellation. -/
inductive DialogMsg where
  | clickedCancel
  | endSession (wParam : Nat)
  | queryEndSession
  | initDialog
  deriving Repr, DecidableEq

/-- The dialog's message handlers: `OnClickedCancel` (lines 271-289) stores
true into `cancel_pressed` and hides the window when configured to;
`OnEndSession` (lines 224-243) stores true when `wParam` is non-zero;
`OnQueryEndSession` and `OnInitDialog` leave the flag alone.  No handler ever
stores false. -/
def dialogHandleMsg (hide_on_cancel : Bool) (st : DialogState) :
    DialogMsg → DialogState
  | .clickedCancel =>
      { st with cancel_pressed := true,
                hidden := st.hidden || hide_on_cancel }
  | .endSession w => if w ≠ 0 then { st with cancel_pressed := true } else st
  | .queryEndSession => st
  | .initDialog => st

/-- Source `WasCancelPressed` (lines 307-310): load the atomic flag. -/
def WasCancelPressed (st : DialogState) : Bool := st.cancel_pressed

/-! ## Helper lemmas -/

theorem dialog_cancel_step_mono (hc : Bool) (st : DialogState) (m : DialogMsg)
    (h : st.cancel_pressed = true) :
    (dialogHandleMsg hc st m).cancel_pressed = true := by
  cases m with
  | clickedCancel => simp [dialogHandleMsg]
  | endSession w =>
      simp only [dialogHandleMsg]
      split <;> simp [h]
  | queryEndSession => simpa [dialogHandleMsg] using h
  | initDialog => simpa [dialogHandleMsg] using h

/-! ## Claims -/

/-- Claim C1 (code bug): the progress callback is specified — and the code's
own comment says — to always deliver the final update (`position ==
input_size`), yet `progress_updater` returns early exactly there: at input
size 1000, final position 1000, with far more than 250 ms elapsed since the
last signal, the spec's update condition holds but the state is returned
unchanged — no meter store, no signal. -/
theorem C1_final_update_dropped :
    progress_updater 1000 1000 10000
        { last_update_time := 0, current_meter_position := 0, signals := 0 } =
      { last_update_time := 0, current_meter_position := 0, signals := 0 } ∧
    specUpdateCondition 1000 1000 10000 0 = true ∧
    progress_updater 1000 999 10000
        { last_update_time := 0, current_meter_position := 0, signals := 0 } =
      { last_update_time := 10000, current_meter_position := 99,
        signals := 1 } := by
  refine ⟨by decide, by decide, by decide⟩

/-- Claim C2: if the derived output path exists as a regular file, the step
reports the collision and aborts before the output is ever opened; whenever
the output was opened, the partial output is removed exactly when the path
did not pre-exist and the transfer failed; a pre-existing non-regular path is
never removed. -/
theorem C2_output_collision_and_cleanup :
    ∀ (st : FileKind) (oo t c : Bool),
      (st = FileKind.regular →
        (outputFileStep st oo t c).reported_exists_error = true ∧
        (outputFileStep st oo t c).opened_output = false ∧
        (outputFileStep st oo t c).continue_batch = false) ∧
      ((outputFileStep st oo t c).opened_output = true →
        ((outputFileStep st oo t c).removed_output = true ↔
          st = FileKind.absent ∧ t = false)) ∧
      (st = FileKind.other → (outputFileStep st oo t c).removed_output = false) := by
  decide

/-- Claim C2 witness: concrete instances of the three conjuncts. -/
theorem C2_output_collision_and_cleanup_witness :
    (outputFileStep FileKind.regular true true false).opened_output = false ∧
    (outputFileStep FileKind.absent true false false).removed_output = true ∧
    (outputFileStep FileKind.other true false false).removed_output = false := by
  refine ⟨((C2_output_collision_and_cleanup FileKind.regular true true false).1
      rfl).2.1, ?_, ?_⟩
  · exact ((C2_output_collision_and_cleanup FileKind.absent true false
      false).2.1 (by decide)).mpr ⟨rfl, rfl⟩
  · exact (C2_output_collision_and_cleanup FileKind.other true false
      false).2.2 rfl

/-- Claim C3: the stream transfer returns true iff the engine result is
`Success`; a cancelled result is never reported; any other non-success result
is reported exactly once with the engine-supplied diagnostic; and the
per-file pipeline continues to the next file only when the return value is
true. -/
theorem C3_engine_result_reporting :
    ∀ r : EngineResult,
      ((EncryptStreamFinish r).returned = true ↔ r = EngineResult.Success) ∧
      ((DecryptStreamFinish r).returned = true ↔ r = EngineResult.Success) ∧
      (r = EngineResult.Cancelled →
        (EncryptStreamFinish r).reports = [] ∧
        (DecryptStreamFinish r).reports = []) ∧
      (∀ d, r = EngineResult.Failure d →
        (EncryptStreamFinish r).reports = ["Failed to encrypt: ".data ++ d] ∧
        (DecryptStreamFinish r).reports = ["Failed to decrypt: ".data ++ d]) ∧
      (∀ (st : FileKind) (oo c : Bool),
        (outputFileStep st oo (EncryptStreamFinish r).returned
            c).continue_batch = true →
          r = EngineResult.Success) := by
  intro r
  cases r with
  | Success =>
      refine ⟨by simp [EncryptStreamFinish, streamFinish],
        by simp [DecryptStreamFinish, streamFinish], by simp, by simp,
        fun _ _ _ _ => rfl⟩
  | Cancelled =>
      refine ⟨by simp [EncryptStreamFinish, streamFinish],
        by simp [DecryptStreamFinish, streamFinish],
        fun _ => ⟨by simp [EncryptStreamFinish, streamFinish],
          by simp [DecryptStreamFinish, streamFinish]⟩, by simp, ?_⟩
      intro st oo c h
      have hret : (EncryptStreamFinish EngineResult.Cancelled).returned =
          false := by simp [EncryptStreamFinish, streamFinish]
      rw [hret] at h
      cases st <;> cases oo <;> simp [outputFileStep] at h
  | Failure d =>
      refine ⟨by simp [EncryptStreamFinish, streamFinish],
        by simp [DecryptStreamFinish, streamFinish], by simp, ?_, ?_⟩
      · intro d' hd
        cases hd
        exact ⟨by simp [EncryptStreamFinish, streamFinish, resultDiagnostic],
          by simp [DecryptStreamFinish, streamFinish, resultDiagnostic]⟩
      · intro st oo c h
        have hret : (EncryptStreamFinish (EngineResult.Failure d)).returned =
            false := by simp [EncryptStreamFinish, streamFinish]
        rw [hret] at h
        cases st <;> cases oo <;> simp [outputFileStep] at h

/-- Claim C3 witness: the cancelled result produces no report and returns
false; only success returns true. -/
theorem C3_engine_result_reporting_witness :
    (EncryptStreamFinish EngineResult.Cancelled).reports = [] ∧
    (EncryptStreamFinish EngineResult.Success).returned = true := by
  refine ⟨((C3_engine_result_reporting EngineResult.Cancelled).2.2.1 rfl).1, ?_⟩
  exact (C3_engine_result_reporting EngineResult.Success).1.mpr rfl

/-- Claim C9: cancellation is monotonic — once `cancel_pressed` is set, no
message handler resets it, so `WasCancelPressed` returns true at every later
observation; and it is set by the cancel click and by a non-zero end-session
notification. -/
theorem C9_cancellation_monotonic :
    (∀ (hc : Bool) (st : DialogState) (msgs : List DialogMsg),
      st.cancel_pressed = true →
      WasCancelPressed (msgs.foldl (dialogHandleMsg hc) st) = true) ∧
    (∀ (hc : Bool) (st : DialogState),
      (dialogHandleMsg hc st DialogMsg.clickedCancel).cancel_pressed = true) ∧
    (∀ (hc : Bool) (st : DialogState) (w : Nat), w ≠ 0 →
      (dialogHandleMsg hc st (DialogMsg.endSession w)).cancel_pressed =
        true) := by
  refine ⟨?_, fun hc st => by simp [dialogHandleMsg], ?_⟩
  · intro hc st msgs
    induction msgs generalizing st with
    | nil => intro h; simpa [WasCancelPressed] using h
    | cons m rest ih =>
        intro h
        exact ih _ (dialog_cancel_step_mono hc st m h)
  · intro hc st w hw
    simp [dialogHandleMsg, hw]

/-- Claim C9 witness: a set flag survives a benign message, and the cancel
click sets it. -/
theorem C9_cancellation_monotonic_witness :
    WasCancelPressed
      (([DialogMsg.initDialog, DialogMsg.endSession 0]).foldl
        (dialogHandleMsg false) { cancel_pressed := true, hidden := false }) =
      true :=
  C9_cancellation_monotonic.1 false
    { cancel_pressed := true, hidden := false }
    [DialogMsg.initDialog, DialogMsg.endSession 0] rfl

/-- Claim C10: on the rendezvous-failure path of `ThreadEntry` (no pending
request matches the calling thread's id, lines 358-388) the only state change
is the decrement of the thread counter: the pending-request queue and the
terminated-thread queue are unchanged, no handle is pushed or released there,
and in particular the failing thread's own handle is never entered into the
reap queue. -/
theorem C10_rendezvous_failure_frame :
    ∀ (tid : Nat) (thr : Bool) (s : WorkerState),
      s.requests.find? (fun r => decide (r.thread_id = tid)) = none →
      (rendezvousAndProcess tid thr s).state.requests = s.requests ∧
      (rendezvousAndProcess tid thr s).state.terminated_threads =
        s.terminated_threads ∧
      (rendezvousAndProcess tid thr s).state.thread_count =
        s.thread_count - 1 ∧
      (rendezvousAndProcess tid thr s).reports = 1 ∧
      (rendezvousAndProcess tid thr s).pushed_handles = [] ∧
      (rendezvousAndProcess tid thr s).released_handles = [] ∧
      ∀ h, h ∉ s.terminated_threads →
        h ∉ (rendezvousAndProcess tid thr s).state.terminated_threads := by
  intro tid thr s hfind
  simp [rendezvousAndProcess, hfind]

/-- Claim C10 witness: the empty dispatcher state with an unknown thread id. -/
theorem C10_rendezvous_failure_frame_witness :
    (rendezvousAndProcess 7 false ⟨0, [], []⟩).state.requests = [] ∧
    (rendezvousAndProcess 7 false ⟨0, [], []⟩).state.thread_count = -1 :=
  ⟨(C10_rendezvous_failure_frame 7 false ⟨0, [], []⟩ rfl).1,
    (C10_rendezvous_failure_frame 7 false ⟨0, [], []⟩ rfl).2.2.1⟩

/-- Claim C4: for every non-empty decrypt batch containing a file without the
`.aes` suffix, `DecryptFiles` emits exactly one error report and nothing
else — no progress dialog is created, no file is opened, no file is
processed. -/
theorem C4_decrypt_suffix_fail_fast :
    ∀ (env : FileEnv) (files : List Filename),
      files ≠ [] →
      (∃ f ∈ files, HasAESExtension f = false) →
      decryptFilesTrace env files = [Event.reportError] ∧
      Event.createProgressDialog ∉ decryptFilesTrace env files ∧
      (∀ n, Event.openInput n ∉ decryptFilesTrace env files) ∧
      (∀ n, Event.openOutput n ∉ decryptFilesTrace env files) ∧
      (decryptFilesTrace env files).count Event.reportError = 1 := by
  intro env files hne hex
  have hempty : files.isEmpty = false := by
    cases files with
    | nil => exact absurd rfl hne
    | cons f fs => rfl
  have htrace : decryptFilesTrace env files = [Event.reportError] := by
    cases hf : files.find? (fun f => !(HasAESExtension f)) with
    | none =>
        exfalso
        obtain ⟨f, hmem, hfalse⟩ := hex
        have := List.find?_eq_none.mp hf f hmem
        simp [hfalse] at this
    | some b => simp [decryptFilesTrace, hempty, hf]
  refine ⟨htrace, ?_, ?_, ?_, ?_⟩ <;> simp [htrace]

/-- Claim C4 witness: the batch `["r"]` (no `.aes` suffix) collapses to a
single error report. -/
theorem C4_decrypt_suffix_fail_fast_witness :
    decryptFilesTrace trivialEnv [['r']] = [Event.reportError] :=
  (C4_decrypt_suffix_fail_fast trivialEnv [['r']] (by decide)
    ⟨['r'], by decide, by decide⟩).1

/-- Claim C7 counterexample: the claim says an empty-list invocation shows no
dialog and validates the list before any dialog; but `ProcessFiles` presents
the password dialog unconditionally before any emptiness check, so an
empty-list run still shows a dialog. -/
theorem C7_counterexample_empty_list_dialog :
    Event.passwordDialog ∈
      processFilesTrace (PasswordPromptResult.ok true) true trivialEnv [] ∧
    processFilesTrace (PasswordPromptResult.ok true) true trivialEnv [] ≠
      [] := by
  refine ⟨by simp [processFilesTrace], by simp [processFilesTrace]⟩

/-- Claim C7 (amended): an empty-list invocation creates no progress dialog,
opens no file and removes nothing; the password dialog, however, is always
presented first — the emptiness check happens inside
`EncryptFiles`/`DecryptFiles`, after password capture. -/
theorem C7_empty_list_no_progress_dialog :
    ∀ (pw : PasswordPromptResult) (encrypt : Bool) (env : FileEnv),
      (processFilesTrace pw encrypt env []).head? =
        some Event.passwordDialog ∧
      Event.createProgressDialog ∉ processFilesTrace pw encrypt env [] ∧
      (∀ n, Event.openInput n ∉ processFilesTrace pw encrypt env []) ∧
      (∀ n, Event.openOutput n ∉ processFilesTrace pw encrypt env []) ∧
      (∀ n, Event.removeOutput n ∉ processFilesTrace pw encrypt env []) := by
  intro pw encrypt env
  cases pw with
  | cancelled => simp [processFilesTrace]
  | ok converts =>
      cases converts with
      | false => simp [processFilesTrace]
      | true =>
          cases encrypt <;>
            simp [processFilesTrace, encryptFilesTrace, decryptFilesTrace]

/-- Claim C8: the positions the controller sends to the progress bar are
strictly increasing from the initial value 0 (the display never moves
backwards); with `input_size = 0` the progress callback never changes its
state, and the controller consequently never sends any position — the bar
stays at 0. -/
theorem C8_progress_forward_only :
    (∀ (last : Nat) (ms : List Nat),
      List.Chain' (· < ·) (last :: sentPositions last ms)) ∧
    (∀ (calls : List (Nat × Nat)) (st : ProgressState),
      progressRun 0 calls st = st) ∧
    (∀ (calls : List (Nat × Nat)) (st : ProgressState),
      st.current_meter_position = 0 →
      sentPositions 0 (meterReadings 0 st calls) = []) := by
  refine ⟨?_, ?_, ?_⟩
  · intro last ms
    show List.Chain (· < ·) last (sentPositions last ms)
    induction ms generalizing last with
    | nil => exact List.Chain.nil
    | cons m rest ih =>
        simp only [sentPositions]
        by_cases hm : last < m
        · rw [if_pos hm]
          exact List.Chain.cons hm (ih m)
        · rw [if_neg hm]
          exact ih last
  · intro calls
    induction calls with
    | nil => intro st; rfl
    | cons pt rest ih =>
        intro st
        have hstep : progress_updater 0 pt.1 pt.2 st = st := by
          simp [progress_updater]
        simp [progressRun, List.foldl_cons, hstep]
        simpa [progressRun] using ih st
  · intro calls
    induction calls with
    | nil => intro st _; rfl
    | cons pt rest ih =>
        intro st h0
        have hstep : progress_updater 0 pt.1 pt.2 st = st := by
          simp [progress_updater]
        simp [meterReadings, hstep, sentPositions, h0]
        exact ih st h0

/-- Claim C8 witness: a concrete zero-size run delivers nothing. -/
theorem C8_progress_forward_only_witness :
    sentPositions 0
      (meterReadings 0
        { last_update_time := 0, current_meter_position := 0, signals := 0 }
        [(5, 10), (10, 700)]) = [] :=
  C8_progress_forward_only.2.2 [(5, 10), (10, 700)]
    { last_update_time := 0, current_meter_position := 0, signals := 0 } rfl

theorem isAesExtensionChars_len :
    ∀ l : Filename, l.length ≠ 4 → isAesExtensionChars l = false
  | [], _ => rfl
  | [_], _ => rfl
  | [_, _], _ => rfl
  | [_, _, _], _ => rfl
  | [_, _, _, _], h => absurd rfl h
  | _ :: _ :: _ :: _ :: _ :: _, _ => rfl

theorem takeWhile_len_le (p : Char → Bool) (l : Filename) :
    (l.takeWhile p).length ≤ l.length := by
  induction l with
  | nil => simp [List.takeWhile]
  | cons a l ih =>
      rw [List.takeWhile_cons]
      split
      · simpa using ih
      · simp

theorem extensionPart_small (f : Filename) (h : f.length ≤ 4) :
    isAesExtensionChars (extensionPart f) = false := by
  unfold extensionPart
  split
  · rfl
  · split
    · rfl
    · split
      · rfl
      · rename_i h1 h2
        apply isAesExtensionChars_len
        have hle : (f.reverse.takeWhile (fun c => c ≠ '.')).length ≤
            f.length := by
          simpa using takeWhile_len_le (fun c => decide (c ≠ '.')) f.reverse
        simp only [List.length_cons, List.length_reverse]
        omega

theorem hasAes_of_reverse (t x a d : Char) (rest : List Char)
    (hrest : 1 ≤ rest.length) :
    isAesExtensionChars (extensionPart (t :: x :: a :: d :: rest).reverse) =
      endsWithAesCI (t :: x :: a :: d :: rest).reverse := by
  have hrevrev : (t :: x :: a :: d :: rest).reverse.reverse =
      t :: x :: a :: d :: rest := List.reverse_reverse _
  have hlen : (t :: x :: a :: d :: rest).reverse.length = rest.length + 4 := by
    simp
  have hends : endsWithAesCI (t :: x :: a :: d :: rest).reverse =
      ((decide (t = 's') || decide (t = 'S')) &&
        (decide (x = 'e') || decide (x = 'E')) &&
        (decide (a = 'a') || decide (a = 'A')) && decide (d = '.')) := by
    rw [endsWithAesCI, hrevrev]
  have hg1 : decide ((t :: x :: a :: d :: rest).reverse = ['.']) = false := by
    rw [decide_eq_false_iff_not]
    intro hcontra
    have hl := congrArg List.length hcontra
    rw [hlen] at hl
    simp at hl
  have hg2 : decide ((t :: x :: a :: d :: rest).reverse = ['.', '.']) =
      false := by
    rw [decide_eq_false_iff_not]
    intro hcontra
    have hl := congrArg List.length hcontra
    rw [hlen] at hl
    simp at hl
  rw [hends]
  unfold extensionPart
  rw [hrevrev, hg1, hg2]
  simp only [Bool.or_self, Bool.false_eq_true, if_false]
  by_cases ht : t = '.'
  · have htw : List.takeWhile (fun c => decide (c ≠ '.'))
        (t :: x :: a :: d :: rest) = [] := by
      rw [List.takeWhile_cons]
      simp [ht]
    rw [htw]
    have hrhs : (decide (t = 's') || decide (t = 'S')) = false := by
      rw [ht]; decide
    rw [hrhs, Bool.false_and, Bool.false_and, Bool.false_and]
    split
    · rfl
    · split
      · rfl
      · rfl
  by_cases hx : x = '.'
  · have htw : List.takeWhile (fun c => decide (c ≠ '.'))
        (t :: x :: a :: d :: rest) = [t] := by
      rw [List.takeWhile_cons, if_pos (by simpa using ht),
        List.takeWhile_cons]
      simp [hx]
    rw [htw]
    have hrhs : (decide (x = 'e') || decide (x = 'E')) = false := by
      rw [hx]; decide
    rw [hrhs, Bool.and_false, Bool.false_and, Bool.false_and]
    split
    · rfl
    · split
      · rfl
      · rfl
  by_cases ha : a = '.'
  · have htw : List.takeWhile (fun c => decide (c ≠ '.'))
        (t :: x :: a :: d :: rest) = [t, x] := by
      rw [List.takeWhile_cons, if_pos (by simpa using ht),
        List.takeWhile_cons, if_pos (by simpa using hx), List.takeWhile_cons]
      simp [ha]
    rw [htw]
    have hrhs : (decide (a = 'a') || decide (a = 'A')) = false := by
      rw [ha]; decide
    rw [hrhs, Bool.and_false, Bool.false_and]
    split
    · rfl
    · split
      · rfl
      · rfl
  by_cases hd : d = '.'
  · have htw : List.takeWhile (fun c => decide (c ≠ '.'))
        (t :: x :: a :: d :: rest) = [t, x, a] := by
      rw [List.takeWhile_cons, if_pos (by simpa using ht),
        List.takeWhile_cons, if_pos (by simpa using hx),
        List.takeWhile_cons, if_pos (by simpa using ha), List.takeWhile_cons]
      simp [hd]
    rw [htw]
    split
    · rename_i hcond
      exfalso
      rw [hlen] at hcond
      simp only [List.length_cons, List.length_nil] at hcond
      omega
    · split
      · rename_i hcond hcond2
        exfalso
        rw [hlen] at hcond2
        simp only [List.length_cons, List.length_nil] at hcond2
        omega
      · show isAesExtensionChars ['.', a, x, t] = _
        rw [isAesExtensionChars, hd]
        rw [Bool.eq_iff_iff]
        simp only [Bool.and_eq_true, Bool.or_eq_true, decide_eq_true_eq]
        constructor
        · rintro ⟨⟨⟨-, h1⟩, h2⟩, h3⟩
          exact ⟨⟨⟨h3, h2⟩, h1⟩, trivial⟩
        · rintro ⟨⟨⟨h1, h2⟩, h3⟩, -⟩
          exact ⟨⟨⟨trivial, h3⟩, h2⟩, h1⟩
  · have htw : List.takeWhile (fun c => decide (c ≠ '.'))
        (t :: x :: a :: d :: rest) =
          t :: x :: a :: d :: rest.takeWhile (fun c => decide (c ≠ '.')) := by
      rw [List.takeWhile_cons, if_pos (by simpa using ht),
        List.takeWhile_cons, if_pos (by simpa using hx),
        List.takeWhile_cons, if_pos (by simpa using ha),
        List.takeWhile_cons, if_pos (by simpa using hd)]
    rw [htw]
    have hrhs : decide (d = '.') = false := by simpa using hd
    rw [hrhs, Bool.and_false]
    split
    · rfl
    · split
      · rfl
      · apply isAesExtensionChars_len
        simp only [List.length_cons, List.length_reverse]
        omega

theorem hasAes_iff_ends (f : Filename) :
    isAesExtensionChars (extensionPart f) =
      (endsWithAesCI f && decide (5 ≤ f.length)) := by
  by_cases hlen : f.length ≤ 4
  · rw [extensionPart_small f hlen]
    have : decide (5 ≤ f.length) = false := by
      rw [decide_eq_false_iff_not]
      omega
    rw [this, Bool.and_false]
  · obtain ⟨t, x, a, d, rest, hrest, hrev⟩ :
        ∃ t x a d rest, 1 ≤ rest.length ∧
          f.reverse = t :: x :: a :: d :: rest := by
      have h5 : 5 ≤ f.reverse.length := by
        rw [List.length_reverse]
        omega
      rcases hr : f.reverse with _ | ⟨t, _ | ⟨x, _ | ⟨a, _ | ⟨d, rest⟩⟩⟩⟩ <;>
        rw [hr] at h5 <;> simp at h5
      exact ⟨t, x, a, d, rest, by omega, rfl⟩
    have hf : f = (t :: x :: a :: d :: rest).reverse := by
      rw [← hrev, List.reverse_reverse]
    rw [hf, hasAes_of_reverse t x a d rest hrest]
    have hsize : decide (5 ≤ (t :: x :: a :: d :: rest).reverse.length) =
        true := by
      rw [decide_eq_true_eq, List.length_reverse]
      simp
      omega
    rw [hsize, Bool.and_true]

/-- Claim C6 counterexample: the bare dotfile name `.aes` ends
case-insensitively with `.aes`, yet `HasAESExtension` rejects it —
`std::filesystem::path::extension()` treats a leading-dot filename as having
no extension — so the claimed "if and only if" fails. -/
theorem C6_counterexample_dotfile :
    HasAESExtension ['.', 'a', 'e', 's'] = false ∧
    endsWithAesCI ['.', 'a', 'e', 's'] = true := by
  decide

/-- Claim C6 (amended): the decrypt-eligibility predicate holds iff the last
path component of the name ends case-insensitively with `.aes` AND is at
least five characters long (a bare dotfile `.aes` is not eligible);
encryption appends exactly `.aes` to the input name; decryption strips
exactly the last four characters. -/
theorem C6_suffix_predicate_and_output_names :
    ∀ s : Filename,
      HasAESExtension s =
        (endsWithAesCI (filenamePart s) &&
          decide (5 ≤ (filenamePart s).length)) ∧
      encryptOutputName s = s ++ ['.', 'a', 'e', 's'] ∧
      decryptOutputName s = s.take (s.length - 4) := by
  intro s
  refine ⟨hasAes_iff_ends (filenamePart s), rfl, ?_⟩
  unfold decryptOutputName wstringResize
  rw [if_pos (Nat.sub_le _ _)]

/-! ## Claim C5: the thread counter -/

theorem threadEntry_count_dec (tid : Nat) (thr : Bool) (w : WorkerState) :
    (ThreadEntry tid thr w).state.thread_count = w.thread_count - 1 := by
  unfold ThreadEntry reapTerminatedThreads rendezvousAndProcess
  cases hfind : w.requests.find? (fun r => decide (r.thread_id = tid)) <;>
    simp [hfind]

theorem reachable_count_eq_running (s : SystemState) (h : ReachableState s) :
    s.worker.thread_count = s.running.length := by
  induction h with
  | init => rfl
  | step hr hstep ih =>
      cases hstep with
      | startOk req =>
          simp only [StartThread, if_true, List.length_cons]
          rw [ih]
          push_cast
          ring
      | startFail req =>
          simpa [StartThread] using ih
      | finish tid thr hmem =>
          have hpos := List.length_pos_of_mem hmem
          rw [threadEntry_count_dec, ih, List.length_erase_of_mem hmem]
          omega

/-- Claim C5: on every reachable dispatcher state the thread counter is
non-negative and `IsBusy` is true iff it is positive; a successful thread
creation increments it exactly once and enqueues exactly one request; a
failed creation changes nothing (no increment, no enqueue); and every
`ThreadEntry` run — normal completion, caught exception
(`processing_throws`), or rendezvous failure — decrements it exactly once. -/
theorem C5_busy_counter_accounting :
    (∀ s : SystemState, ReachableState s →
      0 ≤ s.worker.thread_count ∧
      (IsBusy s.worker = true ↔ 0 < s.worker.thread_count)) ∧
    (∀ (w : WorkerState) (req : RequestData),
      (StartThread w true req).thread_count = w.thread_count + 1 ∧
      (StartThread w true req).requests = w.requests ++ [req]) ∧
    (∀ (w : WorkerState) (req : RequestData), StartThread w false req = w) ∧
    (∀ (tid : Nat) (thr : Bool) (w : WorkerState),
      (ThreadEntry tid thr w).state.thread_count = w.thread_count - 1) := by
  refine ⟨?_, ?_, ?_, threadEntry_count_dec⟩
  · intro s hs
    have hcount := reachable_count_eq_running s hs
    constructor
    · rw [hcount]
      exact_mod_cast Nat.zero_le _
    · rw [IsBusy]
      split
      · rename_i hpos
        simp [hpos]
      · rename_i hneg
        simp [hneg]
  · intro w req
    exact ⟨by simp [StartThread], by simp [StartThread]⟩
  · intro w req
    simp [StartThread]

/-- Claim C5 witness: the initial state is reachable and satisfies the
invariant. -/
theorem C5_busy_counter_accounting_witness :
    0 ≤ (SystemState.mk ⟨0, [], []⟩ []).worker.thread_count :=
  (C5_busy_counter_accounting.1 ⟨⟨0, [], []⟩, []⟩ ReachableState.init).1

end AESCryptWin
